import Mathlib

/-!
Shallow embedding of the cascaded two-port circuit analyser
(`Impedence.py`, `Circ.py`, `MyProg.py`).

Python floats are modelled as real numbers (`ℝ`), complex values as `ℂ`,
`math.pi` as `Real.pi`, 2x2 numpy arrays as an explicit `Mat2` record,
per-frequency dictionaries as association lists or functions on the swept
frequencies, and Python exceptions as `Except` values.
-/

open Real

/-! ### String helpers (Python `split`, `in`, `replace`, `startswith`) -/

/-- `pat.isPrefixOf s` on character lists: Python `s.startswith(pat)`. -/
def strStarts : List Char → List Char → Bool
  | _, [] => true
  | [], _ :: _ => false
  | c :: cs, p :: ps => c == p && strStarts cs ps

/-- Python substring containment `pat in s` on character lists. -/
def strHas : List Char → List Char → Bool
  | [], pat => pat.isEmpty
  | c :: rest, pat => strStarts (c :: rest) pat || strHas rest pat

/-- Python `s.replace("dB", "")`: delete every non-overlapping occurrence
of `dB`, scanning left to right. -/
def stripdB : List Char → List Char
  | 'd' :: 'B' :: rest => stripdB rest
  | c :: rest => c :: stripdB rest
  | [] => []

/-- Python `param.split(" ")[0]`: the characters before the first space. -/
def firstTok (s : String) : String :=
  String.mk (s.toList.takeWhile (fun c => c ≠ ' '))

/-! ### Component model (`Impedence.py`)

`Impedance.Node_ID` and `FreqDepImpedence.Node_ID` share the same pin
logic (lines 111-143 and 245-255 of `Impedence.py`). -/

/-- `Node_ID` pin logic: `if min(Pin1,Pin2) == 0: in_node = max(...) else:
in_node = min(...)`. -/
def Node_ID (p1 p2 : Int) : Int :=
  if min p1 p2 = 0 then max p1 p2 else min p1 p2

/-- A successfully constructed component.  `Impedance` instances carry type
`"R"` or `"G"`; `FreqDepImpedence` instances carry `"L"` or `"C"` (any other
type makes the constructor raise, see `mkImpedance`/`mkFreqDep`). -/
inductive Component where
  | res (p1 p2 : Int) (v : ℝ)
  | adm (p1 p2 : Int) (v : ℝ)
  | ind (p1 p2 : Int) (v : ℝ)
  | cap (p1 p2 : Int) (v : ℝ)

def Component.Pin1 : Component → Int
  | .res p _ _ => p
  | .adm p _ _ => p
  | .ind p _ _ => p
  | .cap p _ _ => p

def Component.Pin2 : Component → Int
  | .res _ p _ => p
  | .adm _ p _ => p
  | .ind _ p _ => p
  | .cap _ p _ => p

def Component.Value : Component → ℝ
  | .res _ _ v => v
  | .adm _ _ v => v
  | .ind _ _ v => v
  | .cap _ _ v => v

/-- The `In_node` attribute, assigned on initialization from `Node_ID`. -/
def Component.In_node (c : Component) : Int :=
  Node_ID c.Pin1 c.Pin2

/-- The exceptions raised by component construction:
`ComponentConnectionException` (pins coincide) and
`ComponentTypeException` (element kind not valid for the class). -/
inductive CompErr where
  | connection
  | kind
deriving DecidableEq

/-- One decoded component descriptor (`{'n1':…,'n2':…,'value':…,'type':…}`). -/
structure RawComp where
  n1 : Int
  n2 : Int
  value : ℝ
  type : String

/-- `Impedance.__init__`: `Is_valid` first raises `ComponentConnectionException`
when `Pin1 == Pin2`; then `Node_ID` raises `ComponentTypeException` when the
type is not `"R"` or `"G"`. -/
def mkImpedance (r : RawComp) : Except CompErr Component :=
  if r.n1 = r.n2 then .error .connection
  else if r.type = "R" then .ok (.res r.n1 r.n2 r.value)
  else if r.type = "G" then .ok (.adm r.n1 r.n2 r.value)
  else .error .kind

/-- `FreqDepImpedence.__init__`: the inherited `Is_valid` check runs first,
then the overridden `Node_ID` raises unless the type is `"L"` or `"C"`.
The frequency sweep argument is carried for fidelity to the constructor
signature; the impedance table it induces is modelled by `Z_GEN` below. -/
def mkFreqDep (r : RawComp) (freq : List ℝ) : Except CompErr Component :=
  if r.n1 = r.n2 then .error .connection
  else if r.type = "L" then .ok (.ind r.n1 r.n2 r.value)
  else if r.type = "C" then .ok (.cap r.n1 r.n2 r.value)
  else .error .kind

/-- One iteration of the construction loop in `MyProg.py` (lines 73-96):
try `Impedance`, and on `ComponentTypeException` retry as
`FreqDepImpedence`. -/
def buildStep (r : RawComp) (freq : List ℝ) : Except CompErr Component :=
  match mkImpedance r with
  | .error .kind => mkFreqDep r freq
  | out => out

/-- The whole construction loop: a `ComponentConnectionException` skips the
component (`continue`); a `ComponentTypeException` escaping `buildStep` is
uncaught and aborts the run. -/
def buildComponents (rs : List RawComp) (freq : List ℝ) :
    Except CompErr (List Component) :=
  match rs with
  | [] => .ok []
  | r :: rest =>
    match buildStep r freq with
    | .ok c => (buildComponents rest freq).map (fun l => c :: l)
    | .error .connection => buildComponents rest freq
    | .error .kind => .error .kind

/-! ### ABCD matrices and impedance tables -/

/-- A 2x2 complex matrix `[[a, b], [c, d]]` (numpy array in the source). -/
structure Mat2 where
  a : ℂ
  b : ℂ
  c : ℂ
  d : ℂ

/-- Matrix product (`@` on 2x2 numpy arrays). -/
def Mat2.mul (M N : Mat2) : Mat2 :=
  ⟨M.a * N.a + M.b * N.c, M.a * N.b + M.b * N.d,
   M.c * N.a + M.d * N.c, M.c * N.b + M.d * N.d⟩

/-- The identity matrix `numpy.array([[1,0],[0,1]])`. -/
def Mat2.id : Mat2 := ⟨1, 0, 0, 1⟩

/-- Capacitive impedance `1/(1j*2*math.pi*F*value)`
(`FreqDepImpedence.Z_GEN`, type `"C"`). -/
noncomputable def Zc (v F : ℝ) : ℂ :=
  1 / (Complex.I * 2 * Real.pi * F * v)

/-- Inductive impedance `1j*2*math.pi*F*value`
(`FreqDepImpedence.Z_GEN`, type `"L"`). -/
noncomputable def Zl (v F : ℝ) : ℂ :=
  Complex.I * 2 * Real.pi * F * v

/-- `FreqDepImpedence.Z_GEN`: the per-frequency impedance lookup table,
one entry per frequency of the sweep; empty for other types. -/
noncomputable def Z_GEN (type : String) (v : ℝ) (freq : List ℝ) :
    List (ℝ × ℂ) :=
  if type = "C" then freq.map (fun F => (F, Zc v F))
  else if type = "L" then freq.map (fun F => (F, Zl v F))
  else []

/-- `MAT_GEN` of both component classes: shunt placement (`Pin1 == 0 or
Pin2 == 0`) gives `[[1,0],[1/Z,1]]`, series gives `[[1,Z],[0,1]]`; for the
admittance type `"G"` the value is already an admittance. -/
noncomputable def Component.MAT_GEN : Component → ℝ → Mat2
  | .res p1 p2 v, _ =>
    if p1 = 0 ∨ p2 = 0 then ⟨1, 0, 1 / (v : ℂ), 1⟩ else ⟨1, (v : ℂ), 0, 1⟩
  | .adm p1 p2 v, _ =>
    if p1 = 0 ∨ p2 = 0 then ⟨1, 0, (v : ℂ), 1⟩ else ⟨1, 1 / (v : ℂ), 0, 1⟩
  | .cap p1 p2 v, F =>
    if p1 = 0 ∨ p2 = 0 then ⟨1, 0, 1 / Zc v F, 1⟩ else ⟨1, Zc v F, 0, 1⟩
  | .ind p1 p2 v, F =>
    if p1 = 0 ∨ p2 = 0 then ⟨1, 0, 1 / Zl v F, 1⟩ else ⟨1, Zl v F, 0, 1⟩

/-! ### Ordering (`Circ.Order_components`) -/

/-- The second sort-key component `not (x.Pin1 == 0 or x.Pin2 == 0)`. -/
def bothNonzero (c : Component) : Bool :=
  !(c.Pin1 == 0 || c.Pin2 == 0)

/-- Lexicographic `<=` on the Python sort key
`(x.In_node, not (x.Pin1 == 0 or x.Pin2 == 0))` (with `False < True`). -/
def keyRel (x y : Component) : Prop :=
  x.In_node < y.In_node ∨
    (x.In_node = y.In_node ∧ (bothNonzero x = true → bothNonzero y = true))

instance : DecidableRel keyRel := fun x y => by
  unfold keyRel; infer_instance

instance : IsTotal Component keyRel :=
  ⟨by
    intro a b
    unfold keyRel
    rcases lt_trichotomy a.In_node b.In_node with h | h | h
    · exact Or.inl (Or.inl h)
    · cases ha : bothNonzero a <;> cases hb : bothNonzero b <;> simp [h]
    · exact Or.inr (Or.inl h)⟩

instance : IsTrans Component keyRel :=
  ⟨by
    intro a b c hab hbc
    unfold keyRel at *
    rcases hab with h1 | ⟨h1, h1'⟩ <;> rcases hbc with h2 | ⟨h2, h2'⟩
    · exact Or.inl (h1.trans h2)
    · exact Or.inl (h2 ▸ h1)
    · exact Or.inl (h1 ▸ h2)
    · exact Or.inr ⟨h1.trans h2, fun h => h2' (h1' h)⟩⟩

/-- `Circ.Order_components`: Python's `sorted` is a stable sort by the key;
a stable sort is extensionally unique, so it is embedded as Mathlib's
(stable) insertion sort by the lexicographic key order. -/
def Order_components (l : List Component) : List Component :=
  l.insertionSort keyRel

/-! ### The circuit (`Circ.py`) -/

/-- The argument attributes of `Circ`. -/
structure Circ where
  components_list : List Component
  Freq : List ℝ
  LoadRes : ℝ
  Vth : ℝ
  Rs : ℝ

/-- The running cascade product of `Circ.MAT_GEN` at one frequency:
`current_MAT = identity; for component in ordered: current_MAT = current_MAT @ ABCD`. -/
noncomputable def cascadeFold (comps : List Component) (F : ℝ) : Mat2 :=
  comps.foldl (fun M comp => M.mul (comp.MAT_GEN F)) Mat2.id

/-- The `components_list_Ordored` attribute. -/
def Circ.components_list_Ordored (c : Circ) : List Component :=
  Order_components c.components_list

/-- The per-frequency cascade matrix (value of `cascade_ABDC_mat[F]`). -/
noncomputable def Circ.cascade (c : Circ) (F : ℝ) : Mat2 :=
  cascadeFold c.components_list_Ordored F

/-- `Circ.MAT_GEN`: the dictionary mapping each swept frequency to its
cascade matrix. -/
noncomputable def Circ.MAT_GEN (c : Circ) : List (ℝ × Mat2) :=
  c.Freq.map (fun F => (F, c.cascade F))

/-- `Zin[F] = (A * Z_L + B) / (C * Z_L + D)` from `Circ.Z_GEN`. -/
noncomputable def Circ.Zin (c : Circ) (F : ℝ) : ℂ :=
  ((c.cascade F).a * (c.LoadRes : ℂ) + (c.cascade F).b) /
    ((c.cascade F).c * (c.LoadRes : ℂ) + (c.cascade F).d)

/-- `Zout[F] = (D * Z_S + B) / (C * Z_S + A)` from `Circ.Z_GEN`. -/
noncomputable def Circ.Zout (c : Circ) (F : ℝ) : ℂ :=
  ((c.cascade F).d * (c.Rs : ℂ) + (c.cascade F).b) /
    ((c.cascade F).c * (c.Rs : ℂ) + (c.cascade F).a)

/-- `Circ.Vin_CALC`: `V1[F] = Vth * (Zin[F]/(Zin[F] + Rs))`. -/
noncomputable def Circ.Vin (c : Circ) (F : ℝ) : ℂ :=
  (c.Vth : ℂ) * (c.Zin F / (c.Zin F + (c.Rs : ℂ)))

/-- `Circ.Iin_CALC`: `I1[F] = Vin[F]/Zin[F]`. -/
noncomputable def Circ.Iin (c : Circ) (F : ℝ) : ℂ :=
  c.Vin F / c.Zin F

/-- `Circ.calculate_VoutIout`: `Iout = V1/(A*LoadRes+B)`. -/
noncomputable def Circ.Iout (c : Circ) (F : ℝ) : ℂ :=
  c.Vin F / ((c.cascade F).a * (c.LoadRes : ℂ) + (c.cascade F).b)

/-- `Circ.calculate_VoutIout`: `Vout = LoadRes * Iout`. -/
noncomputable def Circ.Vout (c : Circ) (F : ℝ) : ℂ :=
  (c.LoadRes : ℂ) * c.Iout F

/-- `Circ.Pin_CALC`: `Pin[F] = V1 * I1.conjugate()`. -/
noncomputable def Circ.Pin (c : Circ) (F : ℝ) : ℂ :=
  c.Vin F * (starRingEnd ℂ) (c.Iin F)

/-- `Circ.Pout_CALC`: `Pout[F] = V2 * I2.conjugate()`. -/
noncomputable def Circ.Pout (c : Circ) (F : ℝ) : ℂ :=
  c.Vout F * (starRingEnd ℂ) (c.Iout F)

/-- `Circ.Av_CALC`: `Av[F] = 1 / (A + B / Z_L)`. -/
noncomputable def Circ.Av (c : Circ) (F : ℝ) : ℂ :=
  1 / ((c.cascade F).a + (c.cascade F).b / (c.LoadRes : ℂ))

/-- `Circ.Ai_CALC`: `Ai[F] = Iout[F]/Iin[F]`. -/
noncomputable def Circ.Ai (c : Circ) (F : ℝ) : ℂ :=
  c.Iout F / c.Iin F

/-- `Circ.Ap_CALC`: `Ap[F] = Pout[F]/Pin[F]`. -/
noncomputable def Circ.Ap (c : Circ) (F : ℝ) : ℂ :=
  c.Pout F / c.Pin F

/-! ### Output selection (`Circ.get_Ordered_Outputs`) -/

/-- The value of a `Circ` attribute, as seen by
`getattr(self, param_raw, None)`: the per-frequency dictionaries of derived
quantities, the per-frequency matrix dictionary, plain numbers, lists, the
string-keyed `conversionDict`, and — since `getattr` also resolves class
attributes — the bound methods of the class. -/
inductive AttrVal where
  | fmap (m : ℝ → ℂ)
  | mmap (m : ℝ → Mat2)
  | num (x : ℝ)
  | rlist (l : List ℝ)
  | clist (l : List Component)
  | smap
  | method

/-- The attribute table of a `Circ` object: every instance attribute
assigned in `Circ.__init__`, and the class's bound methods, which
`getattr` resolves as well.  `getattr` returns `none` for any other name
of the plain (no leading double underscore) form produced for derived
quantities; CPython's `__…__` infrastructure attributes inherited from
`object` (a Python-version-dependent set) are outside the modelled name
space, and the theorems below about unknown-name skipping restrict to
names without that prefix. -/
noncomputable def getattrC (c : Circ) : String → Option AttrVal
  | "Order_components" => some .method
  | "MAT_GEN" => some .method
  | "Vin_CALC" => some .method
  | "Iin_CALC" => some .method
  | "Pin_CALC" => some .method
  | "Pout_CALC" => some .method
  | "Av_CALC" => some .method
  | "Ai_CALC" => some .method
  | "Ap_CALC" => some .method
  | "Z_GEN" => some .method
  | "calculate_VoutIout" => some .method
  | "get_Ordered_Outputs" => some .method
  | "components_list" => some (.clist c.components_list)
  | "Freq" => some (.rlist c.Freq)
  | "LoadRes" => some (.num c.LoadRes)
  | "Vth" => some (.num c.Vth)
  | "Rs" => some (.num c.Rs)
  | "conversionDict" => some .smap
  | "components_list_Ordored" => some (.clist c.components_list_Ordored)
  | "cascade_ABDC_mat" => some (.mmap c.cascade)
  | "Zin" => some (.fmap c.Zin)
  | "Zout" => some (.fmap c.Zout)
  | "Vin" => some (.fmap c.Vin)
  | "Iin" => some (.fmap c.Iin)
  | "Vout" => some (.fmap c.Vout)
  | "Iout" => some (.fmap c.Iout)
  | "Pin" => some (.fmap c.Pin)
  | "Pout" => some (.fmap c.Pout)
  | "Av" => some (.fmap c.Av)
  | "Ai" => some (.fmap c.Ai)
  | "Ap" => some (.fmap c.Ap)
  | _ => none

/-- Result of Python `value[F]`: per-frequency dictionaries yield their
entry; indexing a number, a list, a numpy array, the string-keyed
`conversionDict` or a bound method with a swept (float) frequency
raises. -/
noncomputable def AttrVal.index : AttrVal → ℝ → Except Unit (ℂ ⊕ Mat2)
  | .fmap m, F => .ok (.inl (m F))
  | .mmap m, F => .ok (.inr (m F))
  | .num _, _ => .error ()
  | .rlist _, _ => .error ()
  | .clist _, _ => .error ()
  | .smap, _ => .error ()
  | .method, _ => .error ()

/-- A magnitude in decibels: finite, or `-float('inf')`. -/
inductive MagVal where
  | negInf
  | fin (x : ℝ)

/-- One value of the returned `Outputs[F]` dictionary: either the raw
looked-up value or a `{'Mag': …, 'Phase': …}` pair. -/
inductive OutVal where
  | plain (v : ℂ ⊕ Mat2)
  | db (mag : MagVal) (phase : ℝ)

/-- `dB_multiplier`: 10 if any of `'Pout','Pin','Zin','Zout','Ap'` occurs in
the *whole* request string `param`, else 20. -/
def dB_multiplier (param : String) : ℝ :=
  if (["Pout", "Pin", "Zin", "Zout", "Ap"].any
      (fun k => strHas param.toList k.toList)) then 10 else 20

/-- The SI-prefix scale: `float('1'+conversionDict[key])` for the key (if
any) that `dB_removed` starts with.  The keys are single characters, so
`startswith` reduces to a first-character test. -/
noncomputable def siScale (s : List Char) : Option ℝ :=
  match s with
  | [] => none
  | ch :: _ =>
    if ch = 'p' then some 1e-12
    else if ch = 'n' then some 1e-9
    else if ch = 'u' then some 1e-6
    else if ch = 'm' then some 1e-3
    else if ch = 'k' then some 1e3
    else if ch = 'M' then some 1e6
    else if ch = 'G' then some 1e9
    else none

/-- `{'Mag': mult*log10(abs(z)) if abs(z) > 0 else -inf, 'Phase': phase(z)}`. -/
noncomputable def dbOut (mult : ℝ) (z : ℂ) : OutVal :=
  .db (if 0 < Complex.abs z then .fin (mult * Real.logb 10 (Complex.abs z))
       else .negInf)
    (Complex.arg z)

/-- Processing of one `(param, unit)` item of the output directive at one
frequency: `.ok none` when the attribute lookup fails (silent skip),
`.error ()` when an exception is raised, `.ok (some (param, v))` otherwise.
Indexing a matrix dictionary in the dB branch raises at `abs(...) > 0`
(ambiguous numpy array truth value). -/
noncomputable def processEntry (c : Circ) (F : ℝ) (param unit : String) :
    Except Unit (Option (String × OutVal)) :=
  match getattrC c (firstTok param) with
  | none => .ok none
  | some v =>
    if strHas unit.toList ['d', 'B'] then
      match siScale (stripdB unit.toList) with
      | some scale =>
        match v.index F with
        | .error e => .error e
        | .ok (.inl z) => .ok (some (param, dbOut (dB_multiplier param) (z / (scale : ℂ))))
        | .ok (.inr _) => .error ()
      | none =>
        match v.index F with
        | .error e => .error e
        | .ok (.inl z) => .ok (some (param, dbOut (dB_multiplier param) z))
        | .ok (.inr _) => .error ()
    else
      match v.index F with
      | .error e => .error e
      | .ok iv => .ok (some (param, .plain iv))

/-- Python dictionary assignment `Inter[param] = v` on an insertion-ordered
association list. -/
def dictInsert (l : List (String × OutVal)) (k : String) (v : OutVal) :
    List (String × OutVal) :=
  if l.any (fun p => p.1 == k) then
    l.map (fun p => if p.1 == k then (k, v) else p)
  else l ++ [(k, v)]

/-- The inner loop of `get_Ordered_Outputs`: build `Inter` for one
frequency. -/
noncomputable def processFreq (c : Circ) (order : List (String × String))
    (F : ℝ) : Except Unit (List (String × OutVal)) :=
  order.foldlM
    (fun inter e => do
      match ← processEntry c F e.1 e.2 with
      | none => pure inter
      | some (k, v) => pure (dictInsert inter k v))
    []

/-- `Circ.get_Ordered_Outputs`: `Outputs[F] = Inter` for each swept
frequency (the sweep's frequencies are pairwise distinct in any run, so the
dictionary is an insertion-ordered association list); any exception raised
while processing an item propagates to the caller. -/
noncomputable def get_Ordered_Outputs (c : Circ)
    (order : List (String × String)) :
    Except Unit (List (ℝ × List (String × OutVal))) :=
  c.Freq.foldlM
    (fun outs F => do
      pure (outs ++ [(F, ← processFreq c order F)]))
    []

/-! ### A concrete end-to-end circuit: one series 50-ohm resistor between
nodes 1 and 2, `Vth = 5`, `Rs = 50`, `RL = 50`, sweep `[1000]`. -/

noncomputable def circEx : Circ :=
  { components_list := [Component.res 1 2 50]
    Freq := [1000]
    LoadRes := 50
    Vth := 5
    Rs := 50 }

theorem circEx_cascade : circEx.cascade 1000 = ⟨1, 50, 0, 1⟩ := by
  simp only [Circ.cascade, Circ.components_list_Ordored, circEx, Order_components,
    List.insertionSort, List.orderedInsert, cascadeFold, List.foldl,
    Component.MAT_GEN, Mat2.id, Mat2.mul]
  rw [if_neg (by decide)]
  simp only [Mat2.mk.injEq]
  refine ⟨?_, ?_, ?_, ?_⟩ <;> push_cast <;> ring

theorem circEx_Zin : circEx.Zin 1000 = 100 := by
  rw [Circ.Zin, circEx_cascade]
  show ((1 : ℂ) * ((50 : ℝ) : ℂ) + 50) / ((0 : ℂ) * ((50 : ℝ) : ℂ) + 1) = 100
  push_cast
  norm_num

theorem circEx_Zout : circEx.Zout 1000 = 100 := by
  rw [Circ.Zout, circEx_cascade]
  show ((1 : ℂ) * ((50 : ℝ) : ℂ) + 50) / ((0 : ℂ) * ((50 : ℝ) : ℂ) + 1) = 100
  push_cast
  norm_num

theorem circEx_Vin : circEx.Vin 1000 = 10 / 3 := by
  rw [Circ.Vin, circEx_Zin]
  show ((5 : ℝ) : ℂ) * ((100 : ℂ) / (100 + ((50 : ℝ) : ℂ))) = 10 / 3
  push_cast
  norm_num

theorem circEx_Av : circEx.Av 1000 = 1 / 2 := by
  rw [Circ.Av, circEx_cascade]
  show (1 : ℂ) / (1 + (50 : ℂ) / ((50 : ℝ) : ℂ)) = 1 / 2
  push_cast
  norm_num

/-! ### Stability of the ordering -/

theorem keyRel_refl (x : Component) : keyRel x x :=
  Or.inr ⟨rfl, id⟩

/-- If `x` and `y` carry the same sort key then `keyRel x y` holds; hence an
element strictly below another in the insertion order has a different key. -/
theorem keyRel_of_key_eq {x y : Component} (h1 : x.In_node = y.In_node)
    (h2 : bothNonzero x = bothNonzero y) : keyRel x y :=
  Or.inr ⟨h1, fun hx => h2 ▸ hx⟩

/-- Filtering on one sort-key value commutes with `orderedInsert`: the
inserted element lands before every element of equal key and no element of
that key occurs before the insertion point. -/
theorem filter_orderedInsert (q : Component → Bool)
    (hq : ∀ x y, q x = true → ¬keyRel x y → q y = false) (x : Component) :
    ∀ l : List Component,
      (l.orderedInsert keyRel x).filter q =
        if q x then x :: l.filter q else l.filter q := by
  intro l
  induction l with
  | nil =>
    cases hx : q x <;> simp [List.orderedInsert, List.filter, hx]
  | cons y ys ih =>
    by_cases hk : keyRel x y
    · rw [List.orderedInsert_of_le _ _ hk]
      cases hx : q x <;> simp [List.filter, hx]
    · have hins : (y :: ys).orderedInsert keyRel x =
          y :: ys.orderedInsert keyRel x := by
        simp [List.orderedInsert, hk]
      rw [hins]
      cases hx : q x with
      | true =>
        have hy : q y = false := hq x y hx hk
        simp [List.filter, hy, ih, hx]
      | false =>
        cases hy : q y <;> simp [List.filter, hy, ih, hx]

/-- Filtering on one sort-key value is invariant under the whole stable
sort: elements of equal key keep their original relative order. -/
theorem filter_insertionSort (q : Component → Bool)
    (hq : ∀ x y, q x = true → ¬keyRel x y → q y = false) :
    ∀ l : List Component,
      (l.insertionSort keyRel).filter q = l.filter q := by
  intro l
  induction l with
  | nil => rfl
  | cons a t ih =>
    rw [List.insertionSort, filter_orderedInsert q hq]
    cases ha : q a <;> simp [List.filter, ha, ih]

/-- The compatibility hypothesis, instantiated at a concrete key value. -/
theorem qkey_compat (n : Int) (b : Bool) :
    ∀ x y : Component,
      (x.In_node == n && bothNonzero x == b) = true → ¬keyRel x y →
      (y.In_node == n && bothNonzero y == b) = false := by
  intro x y hx hxy
  by_contra hy
  rw [Bool.not_eq_false, Bool.and_eq_true, beq_iff_eq, beq_iff_eq] at hy
  rw [Bool.and_eq_true, beq_iff_eq, beq_iff_eq] at hx
  exact hxy (keyRel_of_key_eq (hx.1.trans hy.1.symm) (hx.2.trans hy.2.symm))

/-! ### Claim C1 -/

/-- C1 (counterexample): `Order_components` does NOT place components with
two non-zero pins before components with a zero pin among equal `In_node`.
The shunt component `(3,0)` and the series component `(3,5)` share
`In_node = 3`, yet the sort leaves the zero-pin component first: the sort
key `not (Pin1 == 0 or Pin2 == 0)` is `False` for the zero-pin component
and Python sorts `False` before `True`. -/
theorem C1_counterexample :
    Order_components [Component.res 3 0 1, Component.res 3 5 1] =
        [Component.res 3 0 1, Component.res 3 5 1] ∧
      (Component.res 3 0 1).In_node = (Component.res 3 5 1).In_node ∧
      ((Component.res 3 0 1).Pin1 = 0 ∨ (Component.res 3 0 1).Pin2 = 0) ∧
      (Component.res 3 5 1).Pin1 ≠ 0 ∧ (Component.res 3 5 1).Pin2 ≠ 0 := by
  have hk : keyRel (Component.res 3 0 1) (Component.res 3 5 1) :=
    Or.inr ⟨by decide, by intro h; exact absurd h (by decide)⟩
  refine ⟨?_, by decide, by decide, by decide, by decide⟩
  simp only [Order_components, List.insertionSort, List.orderedInsert]
  rw [if_pos hk]

/-- C1 (amended): `Order_components` is the stable ascending sort by
`In_node` in which, among components of equal `In_node`, every component
with a zero pin is placed before every component whose two pins are both
non-zero: the output is a permutation of the input, it is sorted by the
lexicographic key `(In_node, pin1 ≠ 0 and pin2 ≠ 0)`, and components with
equal keys keep their input order (filter invariance). -/
theorem C1_amended_stable_sort (l : List Component) :
    (Order_components l).Perm l ∧
      (Order_components l).Pairwise (fun x y =>
        x.In_node < y.In_node ∨
          (x.In_node = y.In_node ∧
            ((x.Pin1 ≠ 0 ∧ x.Pin2 ≠ 0) → (y.Pin1 ≠ 0 ∧ y.Pin2 ≠ 0)))) ∧
      ∀ (n : Int) (b : Bool),
        (Order_components l).filter
            (fun c => c.In_node == n && bothNonzero c == b) =
          l.filter (fun c => c.In_node == n && bothNonzero c == b) := by
  refine ⟨List.perm_insertionSort keyRel l, ?_, fun n b =>
    filter_insertionSort _ (qkey_compat n b) l⟩
  have hs : (Order_components l).Pairwise keyRel :=
    List.sorted_insertionSort keyRel l
  refine hs.imp ?_
  intro x y h
  rcases h with h | ⟨h1, h2⟩
  · exact Or.inl h
  · refine Or.inr ⟨h1, fun hx => ?_⟩
    have hbx : bothNonzero x = true := by
      simp [bothNonzero, hx.1, hx.2]
    have hby := h2 hbx
    constructor <;> intro h0 <;> simp [bothNonzero, h0] at hby

/-! ### Claim C3 -/

/-- C3: for every pin pair of a successfully constructed component,
`Node_ID` returns the non-zero pin when either pin is `0`, and
`min(pin1, pin2)` when neither pin is `0`; in particular
`Node_ID 1 0 = 1`, `Node_ID 0 5 = 5`, `Node_ID 7 3 = 3`, `Node_ID 2 9 = 2`. -/
theorem C3_inputNode_rule (p1 p2 : Int) :
    (p1 = 0 → p2 ≠ 0 → Node_ID p1 p2 = p2) ∧
      (p2 = 0 → p1 ≠ 0 → Node_ID p1 p2 = p1) ∧
      (p1 ≠ 0 → p2 ≠ 0 → Node_ID p1 p2 = min p1 p2) ∧
      Node_ID 1 0 = 1 ∧ Node_ID 0 5 = 5 ∧ Node_ID 7 3 = 3 ∧ Node_ID 2 9 = 2 := by
  refine ⟨?_, ?_, ?_, by decide, by decide, by decide, by decide⟩ <;>
    intro h1 h2 <;> unfold Node_ID <;> split <;> omega

/-- C3 witness: the rule applied at the concrete pin pairs, discharging
each hypothesis. -/
theorem C3_witness :
    Node_ID 0 5 = 5 ∧ Node_ID 5 0 = 5 ∧ Node_ID 7 3 = 3 :=
  ⟨(C3_inputNode_rule 0 5).1 rfl (by decide),
    (C3_inputNode_rule 5 0).2.1 rfl (by decide),
    (C3_inputNode_rule 7 3).2.2.1 (by decide) (by decide)⟩

/-! ### Claims C4 and C9 -/

/-- C4: construction of a component whose two pins coincide raises
`ComponentConnectionException`, the construction loop drops exactly that
component, and the ordering of the remaining components of the assembled
cascade is the same as if the misconnected component had never been
present. -/
theorem C4_misconnected_dropped (r : RawComp) (l1 l2 : List RawComp)
    (freq : List ℝ) (h : r.n1 = r.n2) :
    mkImpedance r = .error .connection ∧
      buildComponents (l1 ++ r :: l2) freq = buildComponents (l1 ++ l2) freq ∧
      (buildComponents (l1 ++ r :: l2) freq).map Order_components =
        (buildComponents (l1 ++ l2) freq).map Order_components := by
  have h1 : mkImpedance r = .error .connection := by
    simp [mkImpedance, h]
  have hstep : buildStep r freq = .error .connection := by
    simp [buildStep, h1]
  have h2 : buildComponents (l1 ++ r :: l2) freq =
      buildComponents (l1 ++ l2) freq := by
    induction l1 with
    | nil => simp [buildComponents, hstep]
    | cons a t ih =>
      show buildComponents (a :: (t ++ r :: l2)) freq =
        buildComponents (a :: (t ++ l2)) freq
      rcases hb : buildStep a freq with e | c
      · cases e <;> simp [buildComponents, hb, ih]
      · simp [buildComponents, hb, ih]
  exact ⟨h1, h2, by rw [h2]⟩

/-- C4 witness: a shorted 5-ohm resistor between the two copies of node 1
is dropped and does not disturb the rest of the circuit. -/
theorem C4_witness :
    mkImpedance ⟨1, 1, 5, "R"⟩ = .error .connection ∧
      buildComponents [⟨1, 2, 50, "R"⟩, ⟨1, 1, 5, "R"⟩] [1000] =
        buildComponents [⟨1, 2, 50, "R"⟩] [1000] ∧
      (buildComponents [⟨1, 2, 50, "R"⟩, ⟨1, 1, 5, "R"⟩] [1000]).map
          Order_components =
        (buildComponents [⟨1, 2, 50, "R"⟩] [1000]).map Order_components :=
  C4_misconnected_dropped ⟨1, 1, 5, "R"⟩ [⟨1, 2, 50, "R"⟩] [] [1000] rfl

/-- C9: for a component whose pins coincide, the connection check runs
before the element-kind check, so construction fails with
`ComponentConnectionException` even when the type is not a supported
element kind; the driver therefore never retries it as a
frequency-dependent component (the loop's result is `mkImpedance`'s
connection error, not a `mkFreqDep` result) and always drops it. -/
theorem C9_short_circuit_beats_kind_dispatch (r : RawComp) (freq : List ℝ)
    (h : r.n1 = r.n2) :
    mkImpedance r = .error .connection ∧
      buildStep r freq = mkImpedance r ∧
      buildStep r freq = .error .connection ∧
      ∀ rest, buildComponents (r :: rest) freq = buildComponents rest freq := by
  have h1 : mkImpedance r = .error .connection := by
    simp [mkImpedance, h]
  have h2 : buildStep r freq = .error .connection := by
    simp [buildStep, h1]
  exact ⟨h1, h2.trans h1.symm, h2, fun rest => by
    simp [buildComponents, h2]⟩

/-- C9 witness: a shorted component of unsupported kind `"X"` still raises
the connection error and is dropped, with no frequency-dependent retry. -/
theorem C9_witness :
    mkImpedance ⟨2, 2, 1, "X"⟩ = .error .connection ∧
      buildStep ⟨2, 2, 1, "X"⟩ [1000] = mkImpedance ⟨2, 2, 1, "X"⟩ ∧
      buildStep ⟨2, 2, 1, "X"⟩ [1000] = .error .connection ∧
      ∀ rest, buildComponents (⟨2, 2, 1, "X"⟩ :: rest) [1000] =
        buildComponents rest [1000] :=
  C9_short_circuit_beats_kind_dispatch ⟨2, 2, 1, "X"⟩ [1000] rfl

/-! ### Claim C6 -/

/-- C6: for every circuit and every frequency in the sweep, the assembled
network matrix at that frequency is the fold that starts from the identity
matrix and right-multiplies (`M := M @ ABCD`) by each ordered component's
matrix in sequence, and `Circ.MAT_GEN` holds exactly one matrix per swept
frequency. -/
theorem C6_cascade_assembly (c : Circ) (F : ℝ) (hF : F ∈ c.Freq) :
    (F, c.cascade F) ∈ c.MAT_GEN ∧
      c.MAT_GEN.map Prod.fst = c.Freq ∧
      c.cascade F = cascadeFold c.components_list_Ordored F ∧
      cascadeFold [] F = Mat2.id ∧
      ∀ (comps : List Component) (comp : Component),
        cascadeFold (comps ++ [comp]) F =
          (cascadeFold comps F).mul (comp.MAT_GEN F) := by
  refine ⟨List.mem_map_of_mem _ hF, ?_, rfl, rfl, ?_⟩
  · rw [Circ.MAT_GEN, List.map_map]
    exact List.map_id'' (fun x => rfl) c.Freq
  · intro comps comp
    simp [cascadeFold, List.foldl_append]

/-- C6 witness: the assembly property at the concrete one-resistor circuit
and its swept frequency. -/
theorem C6_witness :
    ((1000 : ℝ), circEx.cascade 1000) ∈ circEx.MAT_GEN ∧
      circEx.MAT_GEN.map Prod.fst = circEx.Freq :=
  ⟨(C6_cascade_assembly circEx 1000 (by simp [circEx])).1,
    (C6_cascade_assembly circEx 1000 (by simp [circEx])).2.1⟩

/-! ### Claim C2 -/

/-- C2 (counterexample): in the end-to-end scenario (series 50-ohm resistor
between nodes 1 and 2, `Vth = 5`, `Rs = 50`, `RL = 50`, sweep `[1000]`),
the input-port voltage is `V1 = Vth * Zin/(Zin + Rs) = 5 * 100/150 = 10/3`,
not `2.5` as the claim states. -/
theorem C2_counterexample :
    circEx.Vin 1000 = 10 / 3 ∧ circEx.Vin 1000 ≠ 5 / 2 := by
  refine ⟨circEx_Vin, ?_⟩
  rw [circEx_Vin]
  intro h
  have := congrArg Complex.re h
  norm_num [Complex.div_re] at this

/-- C2 (amended): the same scenario yields `Zin = 100`, `Zout = 100`,
`Av = 0.5`, and `V1 = 10/3`. -/
theorem C2_amended_end_to_end :
    circEx.Zin 1000 = 100 ∧ circEx.Zout 1000 = 100 ∧
      circEx.Vin 1000 = 10 / 3 ∧ circEx.Av 1000 = 1 / 2 :=
  ⟨circEx_Zin, circEx_Zout, circEx_Vin, circEx_Av⟩

/-! ### Claim C5 -/

theorem zc_eval : Zc 0.003 1 = ((-(0.006 * Real.pi)⁻¹ : ℝ) : ℂ) * Complex.I := by
  unfold Zc
  have h : Complex.I * 2 * (Real.pi : ℂ) * ((1 : ℝ) : ℂ) * ((0.003 : ℝ) : ℂ) =
      ((0.006 * Real.pi : ℝ) : ℂ) * Complex.I := by
    have h3 : ((0.003 : ℝ) : ℂ) = (0.003 : ℂ) := by norm_num
    have h1 : ((1 : ℝ) : ℂ) = 1 := by norm_num
    have h6 : ((0.006 : ℝ) : ℂ) = (0.006 : ℂ) := by norm_num
    rw [h3, h1]
    push_cast
    rw [h6]
    ring_nf
  rw [h, one_div, mul_inv, Complex.inv_I]
  push_cast
  ring

theorem zl_eval : Zl 0.003 10 = ((0.06 * Real.pi : ℝ) : ℂ) * Complex.I := by
  unfold Zl
  have h3 : ((0.003 : ℝ) : ℂ) = (0.003 : ℂ) := by norm_num
  have h10 : ((10 : ℝ) : ℂ) = 10 := by norm_num
  have h6 : ((0.06 : ℝ) : ℂ) = (0.06 : ℂ) := by norm_num
  rw [h3, h10]
  push_cast
  rw [h6]
  ring_nf

/-- The modulus of a difference of purely imaginary values. -/
theorem absMulI_sub (r s : ℝ) :
    Complex.abs ((r : ℂ) * Complex.I - (s : ℂ) * Complex.I) = |r - s| := by
  have h : (r : ℂ) * Complex.I - (s : ℂ) * Complex.I =
      ((r - s : ℝ) : ℂ) * Complex.I := by
    push_cast; ring
  rw [h, map_mul, Complex.abs_I, Complex.abs_ofReal, mul_one]

theorem absMulI (s : ℝ) : Complex.abs ((s : ℂ) * Complex.I) = |s| := by
  rw [map_mul, Complex.abs_I, Complex.abs_ofReal, mul_one]

/-- C5: for every sweep and every frequency `f` in it, the precomputed
impedance table of a capacitive component holds `1/(j*2*pi*f*value)` and
that of an inductive component holds `j*2*pi*f*value`; numerically, for
value `0.003` the capacitive impedance at `f = 1` is
`-53.05164769729845j` and the inductive impedance at `f = 10` is
`0.1884955592153876j`, both within `1e-9` relative tolerance. -/
theorem C5_impedance_table (freq : List ℝ) (f v : ℝ) (hf : f ∈ freq) :
    ((f, Zc v f) ∈ Z_GEN "C" v freq ∧ (f, Zl v f) ∈ Z_GEN "L" v freq ∧
        Zc v f = 1 / (Complex.I * 2 * Real.pi * f * v) ∧
        Zl v f = Complex.I * 2 * Real.pi * f * v) ∧
      Complex.abs (Zc 0.003 1 - ((-53.05164769729845 : ℝ) : ℂ) * Complex.I) ≤
        1e-9 * Complex.abs (((-53.05164769729845 : ℝ) : ℂ) * Complex.I) ∧
      Complex.abs (Zl 0.003 10 - ((0.1884955592153876 : ℝ) : ℂ) * Complex.I) ≤
        1e-9 * Complex.abs (((0.1884955592153876 : ℝ) : ℂ) * Complex.I) := by
  have h1 := Real.pi_gt_d20
  have h2 := Real.pi_lt_d20
  refine ⟨⟨?_, ?_, rfl, rfl⟩, ?_, ?_⟩
  · rw [Z_GEN, if_pos rfl]
    exact List.mem_map_of_mem _ hf
  · rw [Z_GEN, if_neg (by decide), if_pos rfl]
    exact List.mem_map_of_mem _ hf
  · rw [zc_eval, absMulI_sub, absMulI]
    have habs : |(-53.05164769729845 : ℝ)| = 53.05164769729845 := by
      rw [abs_neg, abs_of_pos (by norm_num)]
    rw [habs]
    have hy1 : (0.006 * Real.pi)⁻¹ ≤ (0.006 * (3.14159265358979323846 : ℝ))⁻¹ :=
      inv_anti₀ (by norm_num) (by nlinarith)
    have hy2 : ((0.006 : ℝ) * 3.14159265358979323847)⁻¹ ≤ (0.006 * Real.pi)⁻¹ :=
      inv_anti₀ (by positivity) (by nlinarith)
    have hA : ((0.006 : ℝ) * 3.14159265358979323846)⁻¹ ≤
        53.05164769729845 + 1e-9 * 53.05164769729845 := by norm_num
    have hB : (53.05164769729845 : ℝ) - 1e-9 * 53.05164769729845 ≤
        ((0.006 : ℝ) * 3.14159265358979323847)⁻¹ := by norm_num
    rw [abs_le]
    constructor <;> linarith
  · rw [zl_eval, absMulI_sub, absMulI]
    have habs : |(0.1884955592153876 : ℝ)| = 0.1884955592153876 :=
      abs_of_pos (by norm_num)
    rw [habs, abs_le]
    constructor <;> nlinarith

/-- C5 witness: the table entries at the one-frequency sweeps used by the
documented doctests. -/
theorem C5_witness :
    (1, Zc 0.003 1) ∈ Z_GEN "C" 0.003 [1] ∧
      (10, Zl 0.003 10) ∈ Z_GEN "L" 0.003 [10] :=
  ⟨(C5_impedance_table [1] 1 0.003 (by simp)).1.1,
    (C5_impedance_table [10] 10 0.003 (by simp)).1.2.1⟩

/-! ### Claims C7, C8, C10: helper lemmas -/

theorem exceptErrorBind {ε α β : Type} (e : ε) (f : α → Except ε β) :
    (Except.error e >>= f) = Except.error e := rfl

theorem exceptOkBind {ε α β : Type} (a : α) (f : α → Except ε β) :
    (Except.ok a >>= f) = f a := rfl

/-- An element whose step is the identity can be removed from a `foldlM`. -/
theorem foldlM_middle_skip {σ α : Type} (f : σ → α → Except Unit σ) (e : α)
    (he : ∀ s, f s e = pure s) (o1 o2 : List α) (init : σ) :
    (o1 ++ e :: o2).foldlM f init = (o1 ++ o2).foldlM f init := by
  induction o1 generalizing init with
  | nil => simp [List.foldlM, he, exceptOkBind]
  | cons a t ih =>
    show (a :: (t ++ e :: o2)).foldlM f init = (a :: (t ++ o2)).foldlM f init
    rcases hb : f init a with u | s
    · simp [List.foldlM, hb, exceptErrorBind]
    · simp [List.foldlM, hb, exceptOkBind, ih]

/-- A `foldlM` over a list containing an element whose step always raises
itself raises. -/
theorem foldlM_middle_error {σ α : Type} (f : σ → α → Except Unit σ) (e : α)
    (he : ∀ s, f s e = .error ()) (o1 o2 : List α) (init : σ) :
    (o1 ++ e :: o2).foldlM f init = .error () := by
  induction o1 generalizing init with
  | nil => simp [List.foldlM, he, exceptErrorBind]
  | cons a t ih =>
    show (a :: (t ++ e :: o2)).foldlM f init = .error ()
    rcases hb : f init a with u | s
    · rcases u with ⟨⟩
      simp [List.foldlM, hb, exceptErrorBind]
    · simp [List.foldlM, hb, exceptOkBind, ih]

/-- Whether an attribute value is a per-frequency dictionary (of derived
quantities or of cascade matrices), i.e. indexable by a swept frequency. -/
def isPerFreqMap : AttrVal → Bool
  | .fmap _ => true
  | .mmap _ => true
  | _ => false

theorem index_error_of_not_map (v : AttrVal) (hv : isPerFreqMap v = false)
    (F : ℝ) : v.index F = .error () := by
  cases v <;> first
    | rfl
    | simp [isPerFreqMap] at hv

theorem processEntry_error_of_not_map (c : Circ) (F : ℝ)
    (param unit : String) (v : AttrVal)
    (hg : getattrC c (firstTok param) = some v)
    (hv : isPerFreqMap v = false) :
    processEntry c F param unit = .error () := by
  have hidx : v.index F = .error () := index_error_of_not_map v hv F
  unfold processEntry
  rw [hg]
  cases hdb : strHas unit.toList ['d', 'B'] <;>
    cases hsi : siScale (stripdB unit.toList) <;>
      simp [hidx, hsi]

theorem processFreq_error (c : Circ) (F : ℝ) (param unit : String)
    (o1 o2 : List (String × String))
    (hPE : processEntry c F param unit = .error ()) :
    processFreq c (o1 ++ (param, unit) :: o2) F = .error () := by
  apply foldlM_middle_error
  intro s
  show (processEntry c F param unit >>= _) = .error ()
  rw [hPE]
  rfl

theorem get_Ordered_Outputs_error (c : Circ)
    (param unit : String) (o1 o2 : List (String × String))
    (hPE : ∀ F, processEntry c F param unit = .error ())
    (hne : c.Freq ≠ []) :
    get_Ordered_Outputs c (o1 ++ (param, unit) :: o2) = .error () := by
  obtain ⟨F0, rest, hfreq⟩ := List.exists_cons_of_ne_nil hne
  unfold get_Ordered_Outputs
  rw [hfreq]
  have hPF : processFreq c (o1 ++ (param, unit) :: o2) F0 = .error () :=
    processFreq_error c F0 param unit o1 o2 (hPE F0)
  simp [List.foldlM, hPF, exceptErrorBind]

/-! ### Claim C10 -/

/-- C10: the silent-skip guard only skips names that are not attributes of
the `Circ` object.  A directive entry whose requested name is an existing
attribute that is not a per-frequency mapping (e.g. `Rs`, `Vth`,
`LoadRes`, `Freq`, `conversionDict`) passes the `None` check, and the
subsequent indexing by frequency raises, so the whole call fails instead
of skipping the entry. -/
theorem C10_nonmapping_attribute_raises (c : Circ) (param unit : String)
    (v : AttrVal) (o1 o2 : List (String × String))
    (hg : getattrC c (firstTok param) = some v)
    (hv : isPerFreqMap v = false) (hne : c.Freq ≠ []) :
    getattrC c (firstTok param) ≠ none ∧
      (∀ F, processEntry c F param unit = .error ()) ∧
      get_Ordered_Outputs c (o1 ++ (param, unit) :: o2) = .error () := by
  have hPE : ∀ F, processEntry c F param unit = .error () := fun F =>
    processEntry_error_of_not_map c F param unit v hg hv
  exact ⟨by rw [hg]; exact fun h => Option.noConfusion h, hPE,
    get_Ordered_Outputs_error c param unit o1 o2 hPE hne⟩

/-- C10 witness: requesting the existing non-mapping attribute `Vth` makes
the whole output-formatting call raise. -/
theorem C10_witness :
    getattrC circEx (firstTok "Vth ") ≠ none ∧
      (∀ F, processEntry circEx F "Vth " "" = .error ()) ∧
      get_Ordered_Outputs circEx [("Vth ", "")] = .error () :=
  C10_nonmapping_attribute_raises circEx "Vth " "" (.num circEx.Vth) [] []
    rfl rfl (by simp [circEx])

/-! ### Claim C8 -/

theorem processEntry_skip (c : Circ) (F : ℝ) (param unit : String)
    (hg : getattrC c (firstTok param) = none) :
    processEntry c F param unit = .ok none := by
  unfold processEntry
  rw [hg]

/-- C8 (counterexample): a directive entry requesting `Rs` — a name that
does not correspond to any derived per-frequency mapping — is NOT silently
skipped: the attribute exists, so the `None` check passes and indexing the
number by the frequency raises, failing the whole call. -/
theorem C8_counterexample :
    getattrC circEx (firstTok "Rs ") = some (.num circEx.Rs) ∧
      get_Ordered_Outputs circEx [("Rs ", "")] = .error () := by
  refine ⟨rfl, ?_⟩
  exact get_Ordered_Outputs_error circEx "Rs " "" [] []
    (fun F => processEntry_error_of_not_map circEx F "Rs " ""
      (.num circEx.Rs) rfl rfl)
    (by simp [circEx])

/-- C8 (amended): only a requested name that resolves to no attribute of
the `Circ` object — neither an instance attribute assigned in `__init__`
nor a method of the class — is silently skipped: the entry produces no
output key, raises no error, and removing it from the directive leaves
the result unchanged.  A request naming a bound method (e.g. `MAT_GEN`)
passes the `None` check and raises on indexing instead of being skipped.
The hypothesis `hplain` restricts to names without a leading double
underscore, since CPython's version-dependent `__…__` attributes
inherited from `object` are outside the modelled name space. -/
theorem C8_amended_silent_skip (c : Circ) (param unit : String)
    (hplain : strStarts (firstTok param).toList ['_', '_'] = false)
    (hg : getattrC c (firstTok param) = none) :
    (∀ F, processEntry c F param unit = .ok none) ∧
      (∀ (F : ℝ) (pm um : String),
        getattrC c (firstTok pm) = some AttrVal.method →
          processEntry c F pm um = .error ()) ∧
      ∀ o1 o2 : List (String × String),
        get_Ordered_Outputs c (o1 ++ (param, unit) :: o2) =
          get_Ordered_Outputs c (o1 ++ o2) := by
  have hPE : ∀ F, processEntry c F param unit = .ok none := fun F =>
    processEntry_skip c F param unit hg
  refine ⟨hPE, fun F pm um hm =>
    processEntry_error_of_not_map c F pm um AttrVal.method hm rfl,
    fun o1 o2 => ?_⟩
  have hPF : ∀ F, processFreq c (o1 ++ (param, unit) :: o2) F =
      processFreq c (o1 ++ o2) F := by
    intro F
    apply foldlM_middle_skip
    intro s
    show (processEntry c F param unit >>= _) = pure s
    rw [hPE F]
    rfl
  have hfun : (fun (outs : List (ℝ × List (String × OutVal))) F => do
        pure (outs ++ [(F, ← processFreq c (o1 ++ (param, unit) :: o2) F)])) =
      (fun (outs : List (ℝ × List (String × OutVal))) F => do
        pure (outs ++ [(F, ← processFreq c (o1 ++ o2) F)])) := by
    funext outs F
    rw [hPF F]
  unfold get_Ordered_Outputs
  exact congrArg
    (fun g : List (ℝ × List (String × OutVal)) → ℝ →
        Except Unit (List (ℝ × List (String × OutVal))) =>
      List.foldlM g [] c.Freq)
    hfun

/-- C8 witness: a directive entry with the unknown name `Bogus` is skipped
with no error and no output key, while the reachable method-name request
`MAT_GEN dBV` is not skipped — it raises. -/
theorem C8_witness :
    processEntry circEx 1000 "Bogus dBV" "dBV" = .ok none ∧
      get_Ordered_Outputs circEx [("Bogus dBV", "dBV")] =
        get_Ordered_Outputs circEx [] ∧
      processEntry circEx 1000 "MAT_GEN dBV" "dBV" = .error () :=
  ⟨(C8_amended_silent_skip circEx "Bogus dBV" "dBV" rfl rfl).1 1000,
    (C8_amended_silent_skip circEx "Bogus dBV" "dBV" rfl rfl).2.2 [] [],
    (C8_amended_silent_skip circEx "Bogus dBV" "dBV" rfl rfl).2.1 1000
      "MAT_GEN dBV" "dBV" rfl⟩

/-! ### Claim C7 -/

/-- C7 (counterexample): the decibel multiplier is chosen by substring
search over the WHOLE request string, not by the requested quantity: the
request `"Vin dBAp"` (quantity `Vin`, unit token `dBAp`) gets multiplier
10 because `'Ap'` occurs in the request string, although the claim
requires 20 for the quantity `Vin`. -/
theorem C7_counterexample :
    get_Ordered_Outputs circEx [("Vin dBAp", "dBAp")] =
        .ok [((1000 : ℝ), [("Vin dBAp",
          OutVal.db (.fin (10 * Real.logb 10 (10 / 3))) 0)])] ∧
      (10 : ℝ) * Real.logb 10 (10 / 3) ≠ 20 * Real.logb 10 (10 / 3) := by
  have hPE : processEntry circEx 1000 "Vin dBAp" "dBAp" =
      .ok (some ("Vin dBAp", dbOut 10 (circEx.Vin 1000))) := rfl
  have habs : Complex.abs (circEx.Vin 1000) = 10 / 3 := by
    rw [circEx_Vin, show ((10 : ℂ) / 3) = (((10 / 3 : ℝ)) : ℂ) from by norm_num,
      Complex.abs_ofReal]
    norm_num
  have harg : Complex.arg (circEx.Vin 1000) = 0 := by
    rw [circEx_Vin, show ((10 : ℂ) / 3) = (((10 / 3 : ℝ)) : ℂ) from by norm_num]
    exact Complex.arg_ofReal_of_nonneg (by norm_num)
  have hdb2 : dbOut 10 (circEx.Vin 1000) =
      OutVal.db (.fin (10 * Real.logb 10 (10 / 3))) 0 := by
    unfold dbOut
    rw [habs, harg, if_pos (by norm_num)]
  have hpos : 0 < Real.logb 10 (10 / 3) :=
    Real.logb_pos (by norm_num) (by norm_num)
  refine ⟨?_, by intro h; nlinarith⟩
  have hfreq : circEx.Freq = [1000] := rfl
  unfold get_Ordered_Outputs
  rw [hfreq]
  simp only [List.foldlM, processFreq, hPE, exceptOkBind, dictInsert, hdb2]
  rfl

/-- C7 (amended): for a directive entry whose unit token contains `dB` and
whose name resolves to a derived per-frequency mapping, the result is a
`{Mag, Phase}` pair with `Mag = multiplier * log10(|value|)` and `Phase`
the argument in radians, where the value is first divided by the SI scale
when the unit token minus `dB` starts with a recognized SI prefix; the
multiplier is 10 when one of `Pout`, `Pin`, `Zin`, `Zout`, `Ap` occurs as
a substring of the whole request string and 20 otherwise; `Mag` is
negative infinity (not a failure) when `|value| = 0`; and `|value| = 1`
yields `Mag = 0` for either multiplier. -/
theorem C7_amended_dB_conversion (c : Circ) (param unit : String) (F : ℝ)
    (m : ℝ → ℂ) (hg : getattrC c (firstTok param) = some (.fmap m))
    (hdb : strHas unit.toList ['d', 'B'] = true) :
    (dB_multiplier param = 10 ∨ dB_multiplier param = 20) ∧
      (dB_multiplier param =
        if (["Pout", "Pin", "Zin", "Zout", "Ap"].any
            (fun k => strHas param.toList k.toList)) then 10 else 20) ∧
      (siScale (stripdB unit.toList) = none →
        processEntry c F param unit =
          .ok (some (param, dbOut (dB_multiplier param) (m F)))) ∧
      (∀ s, siScale (stripdB unit.toList) = some s →
        processEntry c F param unit =
          .ok (some (param, dbOut (dB_multiplier param) (m F / (s : ℂ))))) ∧
      (∀ (mult : ℝ) (z : ℂ), Complex.abs z = 0 →
        dbOut mult z = .db .negInf (Complex.arg z)) ∧
      (∀ (mult : ℝ) (z : ℂ), 0 < Complex.abs z →
        dbOut mult z =
          .db (.fin (mult * Real.logb 10 (Complex.abs z))) (Complex.arg z)) ∧
      (∀ (mult : ℝ) (z : ℂ), Complex.abs z = 1 →
        dbOut mult z = .db (.fin 0) (Complex.arg z)) := by
  refine ⟨?_, rfl, ?_, ?_, ?_, ?_, ?_⟩
  · unfold dB_multiplier
    split
    · exact Or.inl rfl
    · exact Or.inr rfl
  · intro hsi
    have hdb' : strHas unit.data ['d', 'B'] = true := hdb
    have hsi' : siScale (stripdB unit.data) = none := hsi
    simp [processEntry, hg, hdb', hsi', AttrVal.index]
  · intro s hsi
    have hdb' : strHas unit.data ['d', 'B'] = true := hdb
    have hsi' : siScale (stripdB unit.data) = some s := hsi
    simp [processEntry, hg, hdb', hsi', AttrVal.index]
  · intro mult z h0
    unfold dbOut
    rw [h0, if_neg (by norm_num)]
  · intro mult z hpos
    unfold dbOut
    rw [if_pos hpos]
  · intro mult z h1
    unfold dbOut
    rw [h1, if_pos (by norm_num), Real.logb_one, mul_zero]

/-- C7 witness: the conversion at the concrete circuit for the request
`"Vin dBV"` (no SI prefix; multiplier 20 since no power-like keyword
occurs in the request string). -/
theorem C7_witness :
    processEntry circEx 1000 "Vin dBV" "dBV" =
        .ok (some ("Vin dBV",
          dbOut (dB_multiplier "Vin dBV") (circEx.Vin 1000))) ∧
      dB_multiplier "Vin dBV" = 20 :=
  ⟨(C7_amended_dB_conversion circEx "Vin dBV" "dBV" 1000 circEx.Vin rfl
      rfl).2.2.1 rfl, rfl⟩
